import Mathlib

/-!
Verification of the backup/restore subsystem in `src-tauri/src/lib.rs`.

The Rust code is a set of Tauri commands operating on a single database file
`<app-config-dir>/motormods.db` and a backup directory `<app-config-dir>/backups`.
We embed it shallowly:

* a filesystem is a partial map from absolute paths (lists of components) to
  file contents (strings of bytes);
* `PathBuf::join` is syntactic concatenation of components (with the Rust rule
  that joining an absolute path replaces the base), and the operating system
  resolves `.` and `..` components at syscall time (`normalize`);
* `Local::now().format("%Y-%m-%d_%H-%M-%S")` is an explicit timestamp-string
  argument to each operation (`TimestampOk` captures the character set the
  format produces);
* fallible `fs::copy` / `fs::remove_file` / `fs::metadata` calls are driven by
  an oracle (`Fail`) that decides, per path, whether the underlying OS call
  fails and with which error text.

Directories are implicit (only files are mapped); `get_backups_dir`'s lazy
`create_dir_all` therefore has no observable effect in the model.
-/

namespace Desktop

/-- An absolute filesystem path, as the list of its components from the root. -/
abbrev Path := List String

/-- Split a character list at every occurrence of `sep`, accumulator style. -/
def splitCharAux (sep : Char) : List Char → List Char → List (List Char)
  | [], acc => [acc.reverse]
  | c :: rest, acc =>
    if c = sep then acc.reverse :: splitCharAux sep rest []
    else splitCharAux sep rest (c :: acc)

/-- Split a string at every occurrence of `sep`. -/
def splitChar (sep : Char) (s : String) : List (List Char) :=
  splitCharAux sep s.data []

/-- The components of a path string, as `std::path::Path` parses it on Unix:
split on `/`, dropping empty components (repeated or trailing slashes) and
non-leading `.` components. -/
def splitPath (s : String) : List String :=
  ((splitChar '/' s).map (fun l => String.mk l)).filter (fun c => decide (c ≠ "" ∧ c ≠ "."))

/-- `PathBuf::join`: appends the components of `s`, except that joining an
absolute path (leading `/`) replaces the base path entirely. -/
def pathJoin (dir : Path) (s : String) : Path :=
  if s.data.head? = some '/' then splitPath s else dir ++ splitPath s

/-- Resolution of `.` and `..` components, as the operating system performs it
when a syscall receives the path. -/
def normalize (p : Path) : Path :=
  p.foldl (fun acc c => if c = "." then acc else if c = ".." then acc.dropLast else acc ++ [c]) []

/-- `std::path::Path::extension` of a single file name: the portion after the
final `.`, unless there is no `.`, or the name is `..`, or the name begins with
its only `.`. -/
def extOf (name : String) : Option String :=
  if name = ".." then none
  else
    match splitChar '.' name with
    | [] => none
    | [_] => none
    | first :: rest =>
      if first = [] ∧ rest.length = 1 then none
      else (rest.getLast?).map (fun l => String.mk l)

/-- `Path::extension` of a full path: the extension of its last component. -/
def fileExt (p : Path) : Option String :=
  match p.getLast? with
  | some n => extOf n
  | none => none

/-- A filesystem: file contents indexed by resolved absolute path. -/
abbrev FS := Path → Option String

/-- Effect of a successful `fs::copy src dst` on the file map. -/
def FS.copy (fs : FS) (src dst : Path) : FS :=
  fun p => if p = dst then fs src else fs p

/-- Effect of a successful `fs::remove_file target` on the file map. -/
def FS.remove (fs : FS) (target : Path) : FS :=
  fun p => if p = target then none else fs p

/-- Oracle deciding which fallible OS calls fail, and with which error text.
`none` means the call succeeds. -/
structure Fail where
  copyErr : Path → Path → Option String
  removeErr : Path → Option String
  metaErr : Path → Option String

/-- The oracle under which every OS call succeeds. -/
def noFail : Fail := ⟨fun _ _ => none, fun _ => none, fun _ => none⟩

/-- `get_db_path`: `<app-config-dir>/motormods.db`. -/
def get_db_path (cfg : Path) : Path := cfg ++ ["motormods.db"]

/-- `get_backups_dir`: `<app-config-dir>/backups` (created lazily; directories
are implicit in the model). -/
def get_backups_dir (cfg : Path) : Path := cfg ++ ["backups"]

/-- Rendering of a path for messages (`to_string_lossy`). -/
def pathString (p : Path) : String := "/" ++ String.intercalate "/" p

/-- The character set `%Y-%m-%d_%H-%M-%S` formatting produces: digits, `-`, `_`. -/
def TimestampOk (ts : String) : Prop :=
  ∀ c ∈ ts.data, c.isDigit = true ∨ c = '-' ∨ c = '_'

instance (ts : String) : Decidable (TimestampOk ts) := by
  unfold TimestampOk; infer_instance

/-- Result record of `backup_database`. -/
structure BackupResult where
  filename : String
  path : String
  file_size : Nat
  created_at : String
deriving Repr, DecidableEq

/-- `backup_database`: copy the live database to a fresh timestamped file in the
backup directory. `ts` is the `%Y-%m-%d_%H-%M-%S` stamp, `nowRfc` the RFC 3339
rendering of the second `Local::now()` call. -/
def backup_database (cfg : Path) (fl : Fail) (fs : FS) (ts nowRfc : String) :
    Except String BackupResult × FS :=
  let db_path := normalize (get_db_path cfg)
  let backups_dir := get_backups_dir cfg
  if (fs db_path).isNone then (.error "Database file not found", fs)
  else
    let backup_filename := "motormods_backup_" ++ ts ++ ".db"
    let backup_path := normalize (pathJoin backups_dir backup_filename)
    match fl.copyErr db_path backup_path with
    | some e => (.error ("Failed to backup database: " ++ e), fs)
    | none =>
      let fs1 := fs.copy db_path backup_path
      match fl.metaErr backup_path with
      | some e => (.error ("Failed to get backup metadata: " ++ e), fs1)
      | none =>
        (.ok ⟨backup_filename, pathString backup_path, ((fs1 backup_path).getD "").length, nowRfc⟩,
         fs1)

/-- `restore_database`: copy the named backup over the live database, first
copying the live database (if any) to a `pre_restore_safety_<ts>.db` file. -/
def restore_database (cfg : Path) (fl : Fail) (fs : FS) (ts : String)
    (backup_filename : String) : Except String String × FS :=
  let db_path := normalize (get_db_path cfg)
  let backups_dir := get_backups_dir cfg
  let backup_path := normalize (pathJoin backups_dir backup_filename)
  if (fs backup_path).isNone then
    (.error ("Backup file not found: " ++ backup_filename), fs)
  else
    let safety_filename := "pre_restore_safety_" ++ ts ++ ".db"
    let safety_path := normalize (pathJoin backups_dir safety_filename)
    let step1 : Except String FS :=
      if (fs db_path).isSome then
        match fl.copyErr db_path safety_path with
        | some e => .error ("Failed to create safety backup: " ++ e)
        | none => .ok (fs.copy db_path safety_path)
      else .ok fs
    match step1 with
    | .error e => (.error e, fs)
    | .ok fs1 =>
      match fl.copyErr backup_path db_path with
      | some e => (.error ("Failed to restore database: " ++ e), fs1)
      | none =>
        (.ok ("Database restored from " ++ backup_filename ++ ". Safety backup created: " ++
              safety_filename),
         fs1.copy backup_path db_path)

/-- `import_backup`: copy an external `.db` file over the live database, first
copying the live database (if any) to a `pre_import_safety_<ts>.db` file. -/
def import_backup (cfg : Path) (fl : Fail) (fs : FS) (ts : String)
    (source_path : String) : Except String String × FS :=
  let db_path := normalize (get_db_path cfg)
  let backups_dir := get_backups_dir cfg
  let source := splitPath source_path
  if (fs (normalize source)).isNone then (.error "Source backup file not found", fs)
  else if ¬ fileExt source = some "db" then
    (.error "Invalid backup file. Expected .db file", fs)
  else
    let safety_filename := "pre_import_safety_" ++ ts ++ ".db"
    let safety_path := normalize (pathJoin backups_dir safety_filename)
    let step1 : Except String FS :=
      if (fs db_path).isSome then
        match fl.copyErr db_path safety_path with
        | some e => .error ("Failed to create safety backup: " ++ e)
        | none => .ok (fs.copy db_path safety_path)
      else .ok fs
    match step1 with
    | .error e => (.error e, fs)
    | .ok fs1 =>
      match fl.copyErr (normalize source) db_path with
      | some e => (.error ("Failed to import backup: " ++ e), fs1)
      | none =>
        (.ok ("Database imported from external backup. Safety backup created: " ++
              safety_filename),
         fs1.copy (normalize source) db_path)

/-- `export_backup`: copy the named backup to a caller-supplied destination. -/
def export_backup (cfg : Path) (fl : Fail) (fs : FS)
    (backup_filename destination_path : String) : Except String String × FS :=
  let backups_dir := get_backups_dir cfg
  let backup_path := normalize (pathJoin backups_dir backup_filename)
  let destination := normalize (splitPath destination_path)
  if (fs backup_path).isNone then
    (.error ("Backup file not found: " ++ backup_filename), fs)
  else
    match fl.copyErr backup_path destination with
    | some e => (.error ("Failed to export backup: " ++ e), fs)
    | none => (.ok ("Backup exported to: " ++ destination_path), fs.copy backup_path destination)

/-- `delete_backup`: remove the named backup after an existence check and a
`.db`-extension check on the (syntactic) joined path. -/
def delete_backup (cfg : Path) (fl : Fail) (fs : FS) (backup_filename : String) :
    Except String String × FS :=
  let backups_dir := get_backups_dir cfg
  let backup_path := pathJoin backups_dir backup_filename
  if (fs (normalize backup_path)).isNone then
    (.error ("Backup file not found: " ++ backup_filename), fs)
  else if ¬ fileExt backup_path = some "db" then
    (.error "Can only delete .db backup files", fs)
  else
    match fl.removeErr (normalize backup_path) with
    | some e => (.error ("Failed to delete backup: " ++ e), fs)
    | none => (.ok ("Backup deleted: " ++ backup_filename), fs.remove (normalize backup_path))

/-- A small concrete filesystem used by witnesses: a live database, one backup
in the backup directory, and one external `.db` source file. -/
def demoFS : FS := fun p =>
  if p = ["cfg", "motormods.db"] then some "live"
  else if p = ["cfg", "backups", "b.db"] then some "bk"
  else if p = ["tmp", "src.db"] then some "s"
  else none

/-- A filesystem holding a single backup file and no live database. -/
def onlyBackupFS : FS := fun p =>
  if p = ["cfg", "backups", "b.db"] then some "bk" else none

/-- An oracle under which every copy reading the live database fails (used to
exercise the safety-backup failure path). -/
def failSafety : Fail :=
  ⟨fun a _ => if a = ["cfg", "motormods.db"] then some "disk full" else none,
   fun _ => none, fun _ => none⟩

/-! #### Local date-times and `list_backups`

`list_backups` reads the directory entries of the backup directory, keeps the
readable `.db` entries, renders each modification time with
`DateTime<Local>::to_rfc3339`, and sorts descending by that string.  A
modification time is modelled as the local civil date-time plus UTC offset that
chrono presents (second resolution; chrono appends a fractional part only for
nonzero nanoseconds).  `instant` recovers the UTC instant on a proleptic
Gregorian timeline, which is what ordering of `SystemTime` modification times
means. -/

/-- A local civil date-time with its UTC offset, as chrono's `DateTime<Local>`
presents a file modification time. -/
structure LocalDT where
  year : Nat
  month : Nat
  day : Nat
  hour : Nat
  minute : Nat
  second : Nat
  offNeg : Bool
  offHour : Nat
  offMin : Nat
deriving Repr, DecidableEq

/-- The ASCII digit character for `n ≤ 9`. -/
def digitChar (n : Nat) : Char := Char.ofNat (48 + n)

/-- Two-digit zero-padded decimal rendering (for values below 100). -/
def pad2 (n : Nat) : String := String.mk [digitChar (n / 10), digitChar (n % 10)]

/-- Four-digit zero-padded decimal rendering (for values below 10000). -/
def pad4 (n : Nat) : String := pad2 (n / 100) ++ pad2 (n % 100)

/-- `DateTime::to_rfc3339` at second resolution: `YYYY-MM-DDTHH:MM:SS±HH:MM`. -/
def toRfc3339 (d : LocalDT) : String :=
  pad4 d.year ++ "-" ++ pad2 d.month ++ "-" ++ pad2 d.day ++ "T" ++ pad2 d.hour ++ ":" ++
    pad2 d.minute ++ ":" ++ pad2 d.second ++ (if d.offNeg then "-" else "+") ++
    pad2 d.offHour ++ ":" ++ pad2 d.offMin

/-- Gregorian leap-year rule. -/
def isLeap (y : Nat) : Bool := y % 4 = 0 && (y % 100 ≠ 0 || y % 400 = 0)

/-- Length of a month. -/
def daysInMonth (m : Nat) (leap : Bool) : Nat :=
  match m with
  | 1 => 31
  | 2 => if leap then 29 else 28
  | 3 => 31
  | 4 => 30
  | 5 => 31
  | 6 => 30
  | 7 => 31
  | 8 => 31
  | 9 => 30
  | 10 => 31
  | 11 => 30
  | 12 => 31
  | _ => 0

/-- Days of a common year strictly before month `m`. -/
def monthPrefix (m : Nat) : Nat :=
  match m with
  | 1 => 0
  | 2 => 31
  | 3 => 59
  | 4 => 90
  | 5 => 120
  | 6 => 151
  | 7 => 181
  | 8 => 212
  | 9 => 243
  | 10 => 273
  | 11 => 304
  | 12 => 334
  | _ => 366

/-- Days of the year strictly before month `m`. -/
def daysBeforeMonth (m : Nat) (leap : Bool) : Nat :=
  monthPrefix m + (if leap = true ∧ 3 ≤ m then 1 else 0)

/-- Number of leap years strictly before year `y` (proleptic Gregorian). -/
def leapsBefore (y : Nat) : Nat := ((Finset.range y).filter (fun k => isLeap k = true)).card

/-- Day count of a civil date on the proleptic Gregorian timeline. -/
def dayNumber (y m d : Nat) : Nat :=
  365 * y + leapsBefore y + daysBeforeMonth m (isLeap y) + d

/-- Seconds into the day. -/
def secOfDay (d : LocalDT) : Nat := 3600 * d.hour + 60 * d.minute + d.second

/-- The UTC offset in signed seconds. -/
def offsetSec (d : LocalDT) : Int :=
  (if d.offNeg then -1 else 1) * (3600 * (d.offHour : Int) + 60 * (d.offMin : Int))

/-- The UTC instant (in seconds) of a local civil date-time. -/
def instant (d : LocalDT) : Int :=
  86400 * (dayNumber d.year d.month d.day : Int) + (secOfDay d : Int) - offsetSec d

/-- Well-formedness of a local date-time as chrono would produce it. -/
def LocalDT.WF (d : LocalDT) : Prop :=
  d.year ≤ 9999 ∧ 1 ≤ d.month ∧ d.month ≤ 12 ∧ 1 ≤ d.day ∧
    d.day ≤ daysInMonth d.month (isLeap d.year) ∧
    d.hour ≤ 23 ∧ d.minute ≤ 59 ∧ d.second ≤ 59 ∧ d.offHour ≤ 23 ∧ d.offMin ≤ 59

instance (d : LocalDT) : Decidable d.WF := by
  unfold LocalDT.WF; infer_instance

/-- The two date-times carry the same UTC offset. -/
def sameOffset (a b : LocalDT) : Prop :=
  a.offNeg = b.offNeg ∧ a.offHour = b.offHour ∧ a.offMin = b.offMin

/-- Lexicographic order on the six civil fields (year down to second). -/
def fieldsLt (a b : LocalDT) : Prop :=
  a.year < b.year ∨ (a.year = b.year ∧
    (a.month < b.month ∨ (a.month = b.month ∧
      (a.day < b.day ∨ (a.day = b.day ∧
        (a.hour < b.hour ∨ (a.hour = b.hour ∧
          (a.minute < b.minute ∨ (a.minute = b.minute ∧
            a.second < b.second)))))))))

/-- Metadata of a directory entry, when `fs::metadata` succeeds: size and the
modification time when `metadata.modified()` succeeds. -/
structure EntryMeta where
  size : Nat
  mtime : Option LocalDT
deriving Repr, DecidableEq

/-- A directory entry as `read_dir` yields it; `meta = none` models a failing
`fs::metadata` call on that entry. -/
structure DirEntry where
  name : String
  meta : Option EntryMeta
deriving Repr, DecidableEq

/-- Result record of `list_backups` for one backup file. -/
structure BackupFileInfo where
  filename : String
  path : String
  file_size : Nat
  modified_at : String
deriving Repr, DecidableEq

/-- The `BackupFileInfo` built for one readable entry. -/
def entryInfo (cfg : Path) (e : DirEntry) (m : EntryMeta) : BackupFileInfo :=
  ⟨e.name, pathString (get_backups_dir cfg ++ [e.name]), m.size,
    match m.mtime with
    | some t => toRfc3339 t
    | none => "Unknown"⟩

/-- Loop body of `list_backups`: keep `.db` entries whose metadata is readable. -/
def collectStep (cfg : Path) (acc : List BackupFileInfo) (e : DirEntry) : List BackupFileInfo :=
  if extOf e.name = some "db" then
    match e.meta with
    | some m => acc ++ [entryInfo cfg e m]
    | none => acc
  else acc

/-- The comparator of `backups.sort_by(|a, b| b.modified_at.cmp(&a.modified_at))`:
descending by the `modified_at` string. -/
def descOrder (a b : BackupFileInfo) : Prop := b.modified_at ≤ a.modified_at

/-- Structurally computing decision procedure for lexicographic ordering of
character lists (the library's `String` decidability is iterator-based and does
not reduce inside the kernel). -/
def decLex : (as bs : List Char) → Decidable (List.Lex (fun x y : Char => x < y) as bs)
  | _, [] =>
    isFalse (by intro h; cases h)
  | [], _ :: _ => isTrue (List.Lex.nil)
  | a :: as, b :: bs =>
    if h1 : a < b then isTrue (List.Lex.rel h1)
    else if h2 : a = b then
      match h2, decLex as bs with
      | rfl, isTrue ht => isTrue (List.Lex.cons ht)
      | rfl, isFalse hf =>
        isFalse (by
          intro h
          cases h with
          | rel hr => exact h1 hr
          | cons ht => exact hf ht)
    else
      isFalse (by
        intro h
        cases h with
        | rel hr => exact h1 hr
        | cons ht => exact h2 rfl)

instance : DecidableRel descOrder := fun a b =>
  haveI : Decidable (List.Lex (fun x y : Char => x < y) a.modified_at.data b.modified_at.data) :=
    decLex _ _
  decidable_of_iff (¬ List.Lex (fun x y : Char => x < y) a.modified_at.data b.modified_at.data)
    (by
      unfold descOrder
      rw [show List.Lex (fun x y : Char => x < y) a.modified_at.data b.modified_at.data ↔
          a.modified_at < b.modified_at by
        rw [String.lt_iff_toList_lt]; exact Iff.rfl]
      exact not_lt)

instance : IsTotal BackupFileInfo descOrder :=
  ⟨fun a b => le_total b.modified_at a.modified_at⟩

instance : IsTrans BackupFileInfo descOrder :=
  ⟨fun _ _ _ h1 h2 => le_trans h2 h1⟩

/-- `list_backups`: enumerate the backup directory (`dir = none` models a
failing `read_dir`), keep readable `.db` entries, and sort descending by the
`modified_at` string.  Rust's `sort_by` is a stable sort; `insertionSort` is
the stable sort of the library, so it produces the identical sequence. -/
def list_backups (cfg : Path) (dir : Option (List DirEntry)) :
    Except String (List BackupFileInfo) :=
  Except.ok (List.insertionSort descOrder ((dir.getD []).foldl (collectStep cfg) []))

/-- 0024-11-03 01:30:00 at offset -04:00 (just before a fall-back transition). -/
def dstA : LocalDT := ⟨24, 11, 3, 1, 30, 0, true, 4, 0⟩

/-- 0024-11-03 01:15:00 at offset -05:00 (just after the transition; a later
instant whose rendered string is smaller). -/
def dstB : LocalDT := ⟨24, 11, 3, 1, 15, 0, true, 5, 0⟩

/-- 0024-11-03 02:00:00 at offset -05:00 (later still, largest string). -/
def dstC : LocalDT := ⟨24, 11, 3, 2, 0, 0, true, 5, 0⟩

/-- The three-entry directory listing used to test `list_backups` ordering. -/
def dstDir : List DirEntry :=
  [⟨"a.db", some ⟨1, some dstA⟩⟩, ⟨"b.db", some ⟨1, some dstB⟩⟩, ⟨"c.db", some ⟨1, some dstC⟩⟩]

/-- One invocation of a backup-subsystem command, with its wall-clock inputs. -/
inductive Op where
  | backup (ts nowRfc : String)
  | listB
  | restore (ts backup_filename : String)
  | importB (ts source_path : String)
  | exportB (backup_filename destination_path : String)
  | delete (backup_filename : String)

/-- The filesystem after one command (`list_backups` reads but never writes). -/
def stepFS (cfg : Path) (fl : Fail) (fs : FS) : Op → FS
  | .backup ts rfc => (backup_database cfg fl fs ts rfc).2
  | .listB => fs
  | .restore ts f => (restore_database cfg fl fs ts f).2
  | .importB ts s => (import_backup cfg fl fs ts s).2
  | .exportB f d => (export_backup cfg fl fs f d).2
  | .delete f => (delete_backup cfg fl fs f).2

/-- The filesystem after a sequence of commands. -/
def runOps (cfg : Path) (fl : Fail) (ops : List Op) (fs : FS) : FS :=
  ops.foldl (fun s op => stepFS cfg fl s op) fs

/-- The commands that create files in the backup directory by construction:
`backup_database` and the safety copies of `restore_database`/`import_backup`. -/
def creatorOp : Op → Bool
  | .backup _ _ => true
  | .restore _ _ => true
  | .importB _ _ => true
  | _ => false

/-- The timestamp argument of a command comes from `%Y-%m-%d_%H-%M-%S`. -/
def opTsOk : Op → Prop
  | .backup ts _ => TimestampOk ts
  | .restore ts _ => TimestampOk ts
  | .importB ts _ => TimestampOk ts
  | _ => True

instance (op : Op) : Decidable (opTsOk op) := by
  cases op <;> dsimp [opTsOk] <;> infer_instance

/-- `p` is a path strictly inside the (resolved) backup directory. -/
def InBackupsDir (cfg p : Path) : Prop :=
  ∃ rest, rest ≠ [] ∧ p = normalize (get_backups_dir cfg) ++ rest

/-! ### Helper lemmas about paths and generated file names -/

theorem splitCharAux_no_sep (sep : Char) (l acc : List Char) (h : sep ∉ l) :
    splitCharAux sep l acc = [acc.reverse ++ l] := by
  induction l generalizing acc with
  | nil => simp [splitCharAux]
  | cons c rest ih =>
    have hc : ¬ c = sep := fun hcs => h (hcs ▸ List.mem_cons_self c rest)
    have hr : sep ∉ rest := fun hm => h (List.mem_cons_of_mem c hm)
    simp [splitCharAux, hc, ih _ hr]

theorem splitCharAux_one_sep (sep : Char) (l1 l2 acc : List Char)
    (h1 : sep ∉ l1) (h2 : sep ∉ l2) :
    splitCharAux sep (l1 ++ sep :: l2) acc = [acc.reverse ++ l1, l2] := by
  induction l1 generalizing acc with
  | nil => simp [splitCharAux, splitCharAux_no_sep sep l2 [] h2]
  | cons c rest ih =>
    have hc : ¬ c = sep := fun hcs => h1 (hcs ▸ List.mem_cons_self c rest)
    have hr : sep ∉ rest := fun hm => h1 (List.mem_cons_of_mem c hm)
    simp [splitCharAux, hc, ih _ hr]

theorem splitPath_eq_single (s : String) (h : '/' ∉ s.data) (h1 : s ≠ "") (h2 : s ≠ ".") :
    splitPath s = [s] := by
  have hd : splitChar '/' s = [s.data] := by
    simpa [splitChar] using splitCharAux_no_sep '/' s.data [] h
  simp [splitPath, hd, h1, h2]

theorem stamped_data (pfx ts sfx : String) :
    (pfx ++ ts ++ sfx).data = pfx.data ++ ts.data ++ sfx.data := by
  simp [String.data_append]

theorem ts_no_slash (ts : String) (hts : TimestampOk ts) : '/' ∉ ts.data := by
  intro hm
  rcases hts _ hm with h | h | h <;> exact absurd h (by decide)

theorem ts_no_dot (ts : String) (hts : TimestampOk ts) : '.' ∉ ts.data := by
  intro hm
  rcases hts _ hm with h | h | h <;> exact absurd h (by decide)

theorem stamped_ne_empty (pfx ts : String) : pfx ++ ts ++ ".db" ≠ "" := by
  intro h
  have := congrArg String.data h
  rw [stamped_data] at this
  simp at this

theorem stamped_ne_dot (pfx ts : String) : pfx ++ ts ++ ".db" ≠ "." := by
  intro h
  have := congrArg String.data h
  rw [stamped_data] at this
  have := congrArg List.length this
  simp at this
  omega

theorem stamped_ne_dotdot (pfx ts : String) (hp : pfx.data ≠ []) ( hdot : '.' ∉ pfx.data) :
    pfx ++ ts ++ ".db" ≠ ".." := by
  intro h
  have hd := congrArg String.data h
  rw [stamped_data] at hd
  obtain ⟨c, hc⟩ := List.exists_mem_of_ne_nil pfx.data hp
  have hcmem : c ∈ pfx.data ++ ts.data ++ (".db" : String).data := by
    simp [hc]
  rw [hd] at hcmem
  have hcdot : c = '.' := by simpa using hcmem
  exact hdot (hcdot ▸ hc)

theorem stamped_no_slash (pfx ts : String) (hps : '/' ∉ pfx.data) (hts : TimestampOk ts) :
    '/' ∉ (pfx ++ ts ++ ".db").data := by
  rw [stamped_data]
  intro hm
  rcases List.mem_append.mp hm with hm' | hm'
  · rcases List.mem_append.mp hm' with hm'' | hm''
    · exact hps hm''
    · exact ts_no_slash ts hts hm''
  · exact absurd hm' (by decide)

theorem splitPath_stamped (pfx ts : String) (_hp : pfx.data ≠ []) (hps : '/' ∉ pfx.data)
    (hts : TimestampOk ts) :
    splitPath (pfx ++ ts ++ ".db") = [pfx ++ ts ++ ".db"] :=
  splitPath_eq_single _ (stamped_no_slash pfx ts hps hts)
    (stamped_ne_empty pfx ts) (stamped_ne_dot pfx ts)

theorem extOf_stamped (pfx ts : String) (hp : pfx.data ≠ []) (hdot : '.' ∉ pfx.data)
    (hts : TimestampOk ts) :
    extOf (pfx ++ ts ++ ".db") = some "db" := by
  have hl1 : '.' ∉ pfx.data ++ ts.data := by
    intro hm
    rcases List.mem_append.mp hm with h' | h'
    · exact hdot h'
    · exact ts_no_dot ts hts h'
  have hdata : (pfx ++ ts ++ ".db").data = (pfx.data ++ ts.data) ++ '.' :: ['d', 'b'] := by
    rw [stamped_data]
  have hsplit : splitChar '.' (pfx ++ ts ++ ".db") = [pfx.data ++ ts.data, ['d', 'b']] := by
    rw [splitChar, hdata]
    simpa using splitCharAux_one_sep '.' (pfx.data ++ ts.data) ['d', 'b'] [] hl1 (by decide)
  have hfst : ¬ (pfx.data ++ ts.data = [] ∧ ([['d', 'b']] : List (List Char)).length = 1) :=
    fun h' => hp (List.append_eq_nil.mp h'.1).1
  rw [extOf, if_neg (stamped_ne_dotdot pfx ts hp hdot), hsplit]
  simp [hfst]
  intro h1 _
  exact hp h1

theorem pathJoin_stamped (dir : Path) (pfx ts : String) (hp : pfx.data ≠ [])
    (hps : '/' ∉ pfx.data) (hts : TimestampOk ts) :
    pathJoin dir (pfx ++ ts ++ ".db") = dir ++ [pfx ++ ts ++ ".db"] := by
  have hh : (pfx ++ ts ++ ".db").data.head? ≠ some '/' := by
    rw [stamped_data, List.append_assoc, List.head?_append_of_ne_nil _ hp]
    intro h
    have : '/' ∈ pfx.data := by
      cases hd : pfx.data with
      | nil => exact absurd hd hp
      | cons c rest => rw [hd] at h; simp at h; simp [hd, h]
    exact hps this
  rw [pathJoin, if_neg hh, splitPath_stamped pfx ts hp hps hts]

theorem normalize_append_single (p : Path) (c : String) (h1 : c ≠ ".") (h2 : c ≠ "..") :
    normalize (p ++ [c]) = normalize p ++ [c] := by
  simp [normalize, List.foldl_append, h1, h2]

theorem normalize_db_path (cfg : Path) :
    normalize (get_db_path cfg) = normalize cfg ++ ["motormods.db"] :=
  normalize_append_single cfg "motormods.db" (by decide) (by decide)

theorem normalize_backups_entry (cfg : Path) (s : String) (h1 : s ≠ ".") (h2 : s ≠ "..") :
    normalize (get_backups_dir cfg ++ [s]) = normalize cfg ++ ["backups", s] := by
  rw [get_backups_dir, normalize_append_single _ s h1 h2,
    normalize_append_single cfg "backups" (by decide) (by decide), List.append_assoc]
  rfl

theorem safety_path_eq (cfg : Path) (pfx ts : String) (hp : pfx.data ≠ [])
    (hps : '/' ∉ pfx.data) (hdot : '.' ∉ pfx.data) (hts : TimestampOk ts) :
    normalize (pathJoin (get_backups_dir cfg) (pfx ++ ts ++ ".db")) =
      normalize cfg ++ ["backups", pfx ++ ts ++ ".db"] := by
  rw [pathJoin_stamped _ pfx ts hp hps hts,
    normalize_backups_entry cfg _ (stamped_ne_dot pfx ts) (stamped_ne_dotdot pfx ts hp hdot)]

theorem backups_entry_ne_db (cfg : Path) (s : String) :
    normalize cfg ++ ["backups", s] ≠ normalize cfg ++ ["motormods.db"] := by
  intro h
  have := congrArg List.length h
  simp at this

theorem stamped_inj (pfx ts1 ts2 : String) (h : pfx ++ ts1 ++ ".db" = pfx ++ ts2 ++ ".db") :
    ts1 = ts2 := by
  have hd := congrArg String.data h
  rw [stamped_data, stamped_data, List.append_assoc, List.append_assoc] at hd
  have h1 := List.append_cancel_left hd
  have h2 := List.append_cancel_right h1
  exact String.ext h2

theorem backups_entry_inj (cfg : Path) (s1 s2 : String)
    (h : normalize cfg ++ ["backups", s1] = normalize cfg ++ ["backups", s2]) : s1 = s2 := by
  have := List.append_cancel_left h
  simpa using this

theorem FS.copy_at (fs : FS) (src dst p : Path) :
    FS.copy fs src dst p = if p = dst then fs src else fs p := rfl

/-- Shape of a successful `restore_database` run: safety copy then restore copy. -/
theorem restore_success_eval (cfg : Path) (fl : Fail) (fs : FS) (ts f : String)
    (hb : (fs (normalize (pathJoin (get_backups_dir cfg) f))).isSome = true)
    (hdb : (fs (normalize (get_db_path cfg))).isSome = true)
    (hnf : ∀ a b, fl.copyErr a b = none) :
    restore_database cfg fl fs ts f =
      (Except.ok ("Database restored from " ++ f ++ ". Safety backup created: " ++
          ("pre_restore_safety_" ++ ts ++ ".db")),
        FS.copy (FS.copy fs (normalize (get_db_path cfg))
            (normalize (pathJoin (get_backups_dir cfg) ("pre_restore_safety_" ++ ts ++ ".db"))))
          (normalize (pathJoin (get_backups_dir cfg) f)) (normalize (get_db_path cfg))) := by
  rcases Option.isSome_iff_exists.mp hb with ⟨cb, hcb⟩
  simp [restore_database, hcb, hdb, hnf]

/-- Shape of a successful `restore_database` run without a live database. -/
theorem restore_success_eval_nodb (cfg : Path) (fl : Fail) (fs : FS) (ts f : String)
    (hb : (fs (normalize (pathJoin (get_backups_dir cfg) f))).isSome = true)
    (hdb : fs (normalize (get_db_path cfg)) = none)
    (hnf : ∀ a b, fl.copyErr a b = none) :
    restore_database cfg fl fs ts f =
      (Except.ok ("Database restored from " ++ f ++ ". Safety backup created: " ++
          ("pre_restore_safety_" ++ ts ++ ".db")),
        FS.copy fs (normalize (pathJoin (get_backups_dir cfg) f)) (normalize (get_db_path cfg))) := by
  rcases Option.isSome_iff_exists.mp hb with ⟨cb, hcb⟩
  simp [restore_database, hcb, hdb, hnf]

/-! ### Claim C1 -/

/-- C1 (counterexample): the claim says that for every filename without the
`.db` extension, `delete_backup` and `import_backup` fail with the
extension-violation error (`InvalidInputError`); but both commands check
existence first, so a non-`.db` name that does not exist fails with the
not-found error instead. -/
theorem delete_import_nonDb_cex :
    (delete_backup ["cfg"] noFail (fun _ => none) "notes.txt").1 =
      Except.error "Backup file not found: notes.txt" ∧
    "Backup file not found: notes.txt" ≠ "Can only delete .db backup files" ∧
    (import_backup ["cfg"] noFail (fun _ => none) "2024-01-01_00-00-00" "/tmp/notes.txt").1 =
      Except.error "Source backup file not found" ∧
    "Source backup file not found" ≠ "Invalid backup file. Expected .db file" :=
  ⟨rfl, by decide, rfl, by decide⟩

/-- C1 (amended): for every filename whose joined target lacks the `.db`
extension, `delete_backup` fails and performs no filesystem mutation — with the
extension-violation error when the target exists and the not-found error when
it does not; likewise `import_backup` for a source path lacking the `.db`
extension. -/
theorem delete_import_nonDb_reject (cfg : Path) (fl : Fail) (fs : FS) (ts f src : String)
    (hf : fileExt (pathJoin (get_backups_dir cfg) f) ≠ some "db")
    (hs : fileExt (splitPath src) ≠ some "db") :
    ((delete_backup cfg fl fs f).2 = fs ∧
      (delete_backup cfg fl fs f).1 =
        Except.error (if (fs (normalize (pathJoin (get_backups_dir cfg) f))).isSome = true
          then "Can only delete .db backup files"
          else "Backup file not found: " ++ f)) ∧
    ((import_backup cfg fl fs ts src).2 = fs ∧
      (import_backup cfg fl fs ts src).1 =
        Except.error (if (fs (normalize (splitPath src))).isSome = true
          then "Invalid backup file. Expected .db file"
          else "Source backup file not found")) := by
  constructor
  · cases hfs : fs (normalize (pathJoin (get_backups_dir cfg) f)) with
    | none => simp [delete_backup, hfs]
    | some v => simp [delete_backup, hfs, hf]
  · cases hfs : fs (normalize (splitPath src)) with
    | none => simp [import_backup, hfs]
    | some v => simp [import_backup, hfs, hs]

/-- Witness for `delete_import_nonDb_reject` at a concrete non-`.db` name on an
empty filesystem. -/
theorem delete_import_nonDb_reject_witness :
    ((delete_backup ["cfg"] noFail (fun _ => none) "notes.txt").2 = (fun _ => none : FS) ∧
      (delete_backup ["cfg"] noFail (fun _ => none) "notes.txt").1 =
        Except.error (if ((fun _ => none : FS)
            (normalize (pathJoin (get_backups_dir ["cfg"]) "notes.txt"))).isSome = true
          then "Can only delete .db backup files"
          else "Backup file not found: " ++ "notes.txt")) ∧
    ((import_backup ["cfg"] noFail (fun _ => none) "t" "/tmp/notes.txt").2 = (fun _ => none : FS) ∧
      (import_backup ["cfg"] noFail (fun _ => none) "t" "/tmp/notes.txt").1 =
        Except.error (if ((fun _ => none : FS)
            (normalize (splitPath "/tmp/notes.txt"))).isSome = true
          then "Invalid backup file. Expected .db file"
          else "Source backup file not found")) :=
  delete_import_nonDb_reject ["cfg"] noFail (fun _ => none) "t" "notes.txt" "/tmp/notes.txt"
    (by decide) (by decide)

/-! ### Claim C2 -/

/-- C2: for a filename whose resolved target in the backup directory does not
exist, `restore_database`, `export_backup` and `delete_backup` each fail with
the not-found error and leave the filesystem untouched. -/
theorem nonexistent_notfound_no_effect (cfg : Path) (fl : Fail) (fs : FS) (ts f dest : String)
    (h : fs (normalize (pathJoin (get_backups_dir cfg) f)) = none) :
    restore_database cfg fl fs ts f = (Except.error ("Backup file not found: " ++ f), fs) ∧
    export_backup cfg fl fs f dest = (Except.error ("Backup file not found: " ++ f), fs) ∧
    delete_backup cfg fl fs f = (Except.error ("Backup file not found: " ++ f), fs) := by
  refine ⟨?_, ?_, ?_⟩ <;> simp [restore_database, export_backup, delete_backup, h]

/-- Witness for `nonexistent_notfound_no_effect` at a concrete missing name. -/
theorem nonexistent_notfound_no_effect_witness :
    restore_database ["cfg"] noFail (fun _ => none) "t" "gone.db" =
      (Except.error ("Backup file not found: " ++ "gone.db"), (fun _ => none : FS)) ∧
    export_backup ["cfg"] noFail (fun _ => none) "gone.db" "/tmp/out.db" =
      (Except.error ("Backup file not found: " ++ "gone.db"), (fun _ => none : FS)) ∧
    delete_backup ["cfg"] noFail (fun _ => none) "gone.db" =
      (Except.error ("Backup file not found: " ++ "gone.db"), (fun _ => none : FS)) :=
  nonexistent_notfound_no_effect ["cfg"] noFail (fun _ => none) "t" "gone.db" "/tmp/out.db" rfl

/-! ### Claim C5 -/

/-- C5: importing an existing source file without the `.db` extension fails
with exactly "Invalid backup file. Expected .db file" and changes nothing — in
particular no safety backup is created. -/
theorem import_existing_nonDb_invalid (cfg : Path) (fl : Fail) (fs : FS) (ts src c : String)
    (hex : fs (normalize (splitPath src)) = some c)
    (hext : fileExt (splitPath src) ≠ some "db") :
    import_backup cfg fl fs ts src = (Except.error "Invalid backup file. Expected .db file", fs) := by
  simp [import_backup, hex, hext]

/-- Witness for `import_existing_nonDb_invalid` on a concrete `notes.txt`. -/
theorem import_existing_nonDb_invalid_witness :
    import_backup ["cfg"] noFail
        (fun p => if p = ["tmp", "notes.txt"] then some "text" else none) "t" "/tmp/notes.txt" =
      (Except.error "Invalid backup file. Expected .db file",
        (fun p => if p = ["tmp", "notes.txt"] then some "text" else none : FS)) :=
  import_existing_nonDb_invalid ["cfg"] noFail
    (fun p => if p = ["tmp", "notes.txt"] then some "text" else none) "t" "/tmp/notes.txt" "text"
    (by decide) (by decide)

/-! ### Claim C3 -/

/-- C3 (counterexample): two successive restores of the same backup within the
same wall-clock second compute the same safety filename, so the second call
overwrites the first safety backup (the saved pre-restore content "live" is
replaced by "bk") instead of creating its own distinct safety backup. -/
theorem restore_twice_same_second_cex :
    (restore_database ["cfg"] noFail demoFS "2024-01-01_00-00-00" "b.db").2
        ["cfg", "backups", "pre_restore_safety_2024-01-01_00-00-00.db"] = some "live" ∧
    (restore_database ["cfg"] noFail
          (restore_database ["cfg"] noFail demoFS "2024-01-01_00-00-00" "b.db").2
          "2024-01-01_00-00-00" "b.db").2
        ["cfg", "backups", "pre_restore_safety_2024-01-01_00-00-00.db"] = some "bk" ∧
    ("bk" : String) ≠ "live" :=
  ⟨rfl, rfl, by decide⟩

/-- C3 (amended): restoring the same backup twice (with both copies succeeding)
leaves the database byte-identical to the backup after each call and identical
across the calls; each call saves a safety backup of the database it found, and
the two safety backups are distinct provided the two calls carry distinct
second-resolution timestamps — equal timestamps reuse one filename, the second
call overwriting the first safety copy. -/
theorem restore_idempotent_content (cfg : Path) (fl : Fail) (fs : FS) (ts1 ts2 f : String)
    (hts1 : TimestampOk ts1) (hts2 : TimestampOk ts2) (hne : ts1 ≠ ts2) (c0 cb : String)
    (hdb : fs (normalize (get_db_path cfg)) = some c0)
    (hb : fs (normalize (pathJoin (get_backups_dir cfg) f)) = some cb)
    (hnf : ∀ a b, fl.copyErr a b = none) :
    (restore_database cfg fl fs ts1 f).2 (normalize (get_db_path cfg)) =
      (restore_database cfg fl fs ts1 f).2 (normalize (pathJoin (get_backups_dir cfg) f)) ∧
    (restore_database cfg fl (restore_database cfg fl fs ts1 f).2 ts2 f).2
        (normalize (get_db_path cfg)) =
      (restore_database cfg fl (restore_database cfg fl fs ts1 f).2 ts2 f).2
        (normalize (pathJoin (get_backups_dir cfg) f)) ∧
    (restore_database cfg fl (restore_database cfg fl fs ts1 f).2 ts2 f).2
        (normalize (get_db_path cfg)) =
      (restore_database cfg fl fs ts1 f).2 (normalize (get_db_path cfg)) ∧
    normalize (pathJoin (get_backups_dir cfg) ("pre_restore_safety_" ++ ts1 ++ ".db")) ≠
      normalize (pathJoin (get_backups_dir cfg) ("pre_restore_safety_" ++ ts2 ++ ".db")) ∧
    (restore_database cfg fl fs ts1 f).2
        (normalize (pathJoin (get_backups_dir cfg) ("pre_restore_safety_" ++ ts1 ++ ".db"))) =
      some c0 ∧
    (restore_database cfg fl (restore_database cfg fl fs ts1 f).2 ts2 f).2
        (normalize (pathJoin (get_backups_dir cfg) ("pre_restore_safety_" ++ ts1 ++ ".db"))) =
      some c0 ∧
    (restore_database cfg fl (restore_database cfg fl fs ts1 f).2 ts2 f).2
        (normalize (pathJoin (get_backups_dir cfg) ("pre_restore_safety_" ++ ts2 ++ ".db"))) =
      (restore_database cfg fl fs ts1 f).2 (normalize (get_db_path cfg)) := by
  have h1db : normalize (pathJoin (get_backups_dir cfg) ("pre_restore_safety_" ++ ts1 ++ ".db")) ≠
      normalize (get_db_path cfg) := by
    rw [safety_path_eq cfg "pre_restore_safety_" ts1 (by decide) (by decide) (by decide) hts1,
      normalize_db_path]
    exact backups_entry_ne_db cfg _
  have h2db : normalize (pathJoin (get_backups_dir cfg) ("pre_restore_safety_" ++ ts2 ++ ".db")) ≠
      normalize (get_db_path cfg) := by
    rw [safety_path_eq cfg "pre_restore_safety_" ts2 (by decide) (by decide) (by decide) hts2,
      normalize_db_path]
    exact backups_entry_ne_db cfg _
  have h12 : normalize (pathJoin (get_backups_dir cfg) ("pre_restore_safety_" ++ ts1 ++ ".db")) ≠
      normalize (pathJoin (get_backups_dir cfg) ("pre_restore_safety_" ++ ts2 ++ ".db")) := by
    rw [safety_path_eq cfg "pre_restore_safety_" ts1 (by decide) (by decide) (by decide) hts1,
      safety_path_eq cfg "pre_restore_safety_" ts2 (by decide) (by decide) (by decide) hts2]
    intro h
    exact hne (stamped_inj _ _ _ (backups_entry_inj cfg _ _ h))
  have e1 := restore_success_eval cfg fl fs ts1 f (by simp [hb]) (by simp [hdb]) hnf
  generalize hDB : normalize (get_db_path cfg) = db at *
  generalize hBP : normalize (pathJoin (get_backups_dir cfg) f) = bp at *
  generalize hSP1 :
    normalize (pathJoin (get_backups_dir cfg) ("pre_restore_safety_" ++ ts1 ++ ".db")) = sp1 at *
  generalize hSP2 :
    normalize (pathJoin (get_backups_dir cfg) ("pre_restore_safety_" ++ ts2 ++ ".db")) = sp2 at *
  rw [e1]
  have hf1bp : ((((fs.copy db sp1).copy bp db) bp).isSome : Bool) = true := by
    by_cases hx : bp = db <;> by_cases hy : bp = sp1 <;> simp [FS.copy_at, hx, hy, hdb, hb]
  have hf1db : ((((fs.copy db sp1).copy bp db) db).isSome : Bool) = true := by
    by_cases hy : bp = sp1 <;> simp [FS.copy_at, hy, hdb, hb]
  have e2 := restore_success_eval cfg fl ((fs.copy db sp1).copy bp db) ts2 f
    (by rw [hBP]; exact hf1bp) (by rw [hDB]; exact hf1db) hnf
  rw [hDB, hBP, hSP2] at e2
  rw [e2]
  refine ⟨?_, ?_, ?_, h12, ?_, ?_, ?_⟩
  · by_cases hx : bp = db <;> simp [FS.copy_at, hx]
  · by_cases hx : bp = db <;> simp [FS.copy_at, hx]
  · by_cases hx : bp = sp2 <;> by_cases hy : bp = db <;> simp [FS.copy_at, hx, hy]
  · simp [FS.copy_at, h1db, hdb]
  · simp [FS.copy_at, h1db, h12, hdb]
  · simp [FS.copy_at, h2db]

/-- Witness for `restore_idempotent_content` on the demo filesystem with two
distinct timestamps. -/
theorem restore_idempotent_content_witness :
    (restore_database ["cfg"] noFail demoFS "2024-01-01_00-00-00" "b.db").2
      (normalize (get_db_path ["cfg"])) =
    (restore_database ["cfg"] noFail demoFS "2024-01-01_00-00-00" "b.db").2
      (normalize (pathJoin (get_backups_dir ["cfg"]) "b.db")) ∧
    (restore_database ["cfg"] noFail
        (restore_database ["cfg"] noFail demoFS "2024-01-01_00-00-00" "b.db").2
        "2024-01-01_00-00-01" "b.db").2 (normalize (get_db_path ["cfg"])) =
      (restore_database ["cfg"] noFail
        (restore_database ["cfg"] noFail demoFS "2024-01-01_00-00-00" "b.db").2
        "2024-01-01_00-00-01" "b.db").2 (normalize (pathJoin (get_backups_dir ["cfg"]) "b.db")) ∧
    (restore_database ["cfg"] noFail
        (restore_database ["cfg"] noFail demoFS "2024-01-01_00-00-00" "b.db").2
        "2024-01-01_00-00-01" "b.db").2 (normalize (get_db_path ["cfg"])) =
      (restore_database ["cfg"] noFail demoFS "2024-01-01_00-00-00" "b.db").2
        (normalize (get_db_path ["cfg"])) ∧
    normalize (pathJoin (get_backups_dir ["cfg"])
        ("pre_restore_safety_" ++ "2024-01-01_00-00-00" ++ ".db")) ≠
      normalize (pathJoin (get_backups_dir ["cfg"])
        ("pre_restore_safety_" ++ "2024-01-01_00-00-01" ++ ".db")) ∧
    (restore_database ["cfg"] noFail demoFS "2024-01-01_00-00-00" "b.db").2
        (normalize (pathJoin (get_backups_dir ["cfg"])
          ("pre_restore_safety_" ++ "2024-01-01_00-00-00" ++ ".db"))) = some "live" ∧
    (restore_database ["cfg"] noFail
        (restore_database ["cfg"] noFail demoFS "2024-01-01_00-00-00" "b.db").2
        "2024-01-01_00-00-01" "b.db").2
        (normalize (pathJoin (get_backups_dir ["cfg"])
          ("pre_restore_safety_" ++ "2024-01-01_00-00-00" ++ ".db"))) = some "live" ∧
    (restore_database ["cfg"] noFail
        (restore_database ["cfg"] noFail demoFS "2024-01-01_00-00-00" "b.db").2
        "2024-01-01_00-00-01" "b.db").2
        (normalize (pathJoin (get_backups_dir ["cfg"])
          ("pre_restore_safety_" ++ "2024-01-01_00-00-01" ++ ".db"))) =
      (restore_database ["cfg"] noFail demoFS "2024-01-01_00-00-00" "b.db").2
        (normalize (get_db_path ["cfg"])) :=
  restore_idempotent_content ["cfg"] noFail demoFS "2024-01-01_00-00-00" "2024-01-01_00-00-01"
    "b.db" (by decide) (by decide) (by decide) "live" "bk" (by decide) (by decide)
    (fun _ _ => rfl)

/-! ### Claim C8 -/

/-- Everything `list_backups` collects comes from a readable `.db` entry. -/
theorem collect_mem (cfg : Path) (entries : List DirEntry) (acc : List BackupFileInfo)
    (x : BackupFileInfo) (hx : x ∈ entries.foldl (collectStep cfg) acc) :
    x ∈ acc ∨ ∃ e ∈ entries, ∃ m, e.meta = some m ∧ extOf e.name = some "db" ∧
      x = entryInfo cfg e m := by
  induction entries generalizing acc with
  | nil => exact Or.inl hx
  | cons e rest ih =>
    rw [List.foldl_cons] at hx
    rcases ih (collectStep cfg acc e) hx with hmem | ⟨e', he', m, hm, hext, hxe⟩
    · by_cases hext : extOf e.name = some "db"
      · cases hme : e.meta with
        | none =>
          rw [collectStep, if_pos hext, hme] at hmem
          exact Or.inl hmem
        | some m =>
          rw [collectStep, if_pos hext, hme] at hmem
          rcases List.mem_append.mp hmem with h' | h'
          · exact Or.inl h'
          · right
            exact ⟨e, List.mem_cons_self e rest, m, hme, hext, by simpa using h'⟩
      · rw [collectStep, if_neg hext] at hmem
        exact Or.inl hmem
    · exact Or.inr ⟨e', List.mem_cons_of_mem _ he', m, hm, hext, hxe⟩

/-- C8: `list_backups` never fails due to directory-read problems: it yields a
successful (possibly empty) sequence; an unreadable directory or an empty
directory gives the empty sequence, and every listed element stems from a
readable entry bearing the `.db` extension. -/
theorem list_backups_never_fails (cfg : Path) (dir : Option (List DirEntry)) :
    (∃ l, list_backups cfg dir = Except.ok l) ∧
    (dir = none → list_backups cfg dir = Except.ok []) ∧
    (dir = some [] → list_backups cfg dir = Except.ok []) ∧
    (∀ l, list_backups cfg dir = Except.ok l →
      ∀ x ∈ l, ∃ e ∈ dir.getD [], ∃ m, e.meta = some m ∧ extOf e.name = some "db" ∧
        x = entryInfo cfg e m) := by
  refine ⟨⟨_, rfl⟩, ?_, ?_, ?_⟩
  · rintro rfl; rfl
  · rintro rfl; rfl
  · intro l hl x hx
    have hl' : List.insertionSort descOrder ((dir.getD []).foldl (collectStep cfg) []) = l :=
      Except.ok.inj hl
    rw [← hl'] at hx
    have hx' : x ∈ (dir.getD []).foldl (collectStep cfg) [] :=
      (List.perm_insertionSort descOrder _).mem_iff.mp hx
    rcases collect_mem cfg (dir.getD []) [] x hx' with h | h
    · cases h
    · exact h

/-- Witness for `list_backups_never_fails` on a directory holding a readable
backup, an unreadable entry, and a non-`.db` file. -/
theorem list_backups_never_fails_witness :
    (∃ l, list_backups ["cfg"]
        (some [⟨"a.db", some ⟨1, some dstA⟩⟩, ⟨"broken.db", none⟩, ⟨"notes.txt", some ⟨2, none⟩⟩]) =
      Except.ok l) ∧
    ((some [⟨"a.db", some ⟨1, some dstA⟩⟩, ⟨"broken.db", none⟩, ⟨"notes.txt", some ⟨2, none⟩⟩] :
        Option (List DirEntry)) = none →
      list_backups ["cfg"]
          (some [⟨"a.db", some ⟨1, some dstA⟩⟩, ⟨"broken.db", none⟩,
            ⟨"notes.txt", some ⟨2, none⟩⟩]) =
        Except.ok []) ∧
    ((some [⟨"a.db", some ⟨1, some dstA⟩⟩, ⟨"broken.db", none⟩, ⟨"notes.txt", some ⟨2, none⟩⟩] :
        Option (List DirEntry)) = some [] →
      list_backups ["cfg"]
          (some [⟨"a.db", some ⟨1, some dstA⟩⟩, ⟨"broken.db", none⟩,
            ⟨"notes.txt", some ⟨2, none⟩⟩]) =
        Except.ok []) ∧
    (∀ l, list_backups ["cfg"]
          (some [⟨"a.db", some ⟨1, some dstA⟩⟩, ⟨"broken.db", none⟩,
            ⟨"notes.txt", some ⟨2, none⟩⟩]) =
        Except.ok l →
      ∀ x ∈ l, ∃ e ∈ (some [⟨"a.db", some ⟨1, some dstA⟩⟩, ⟨"broken.db", none⟩,
            ⟨"notes.txt", some ⟨2, none⟩⟩] : Option (List DirEntry)).getD [],
        ∃ m, e.meta = some m ∧ extOf e.name = some "db" ∧ x = entryInfo ["cfg"] e m) :=
  list_backups_never_fails ["cfg"]
    (some [⟨"a.db", some ⟨1, some dstA⟩⟩, ⟨"broken.db", none⟩, ⟨"notes.txt", some ⟨2, none⟩⟩])

/-! ### Claim C4: lexicographic analysis of RFC 3339 strings -/

theorem lex_irrefl (p : List Char) : ¬ List.Lex (fun x y : Char => x < y) p p := by
  induction p with
  | nil => intro h; cases h
  | cons c p ih =>
    intro h
    cases h with
    | rel hr => exact lt_irrefl c hr
    | cons ht => exact ih ht

theorem lex_strip (p x y : List Char) :
    List.Lex (fun a b : Char => a < b) (p ++ x) (p ++ y) ↔
      List.Lex (fun a b : Char => a < b) x y := by
  induction p with
  | nil => simp
  | cons c p ih =>
    constructor
    · intro h
      cases h with
      | rel hr => exact absurd hr (lt_irrefl c)
      | cons ht => exact ih.mp ht
    · intro h
      exact List.Lex.cons (ih.mpr h)

theorem lex_head (p q x y : List Char) (hl : p.length = q.length) (hne : p ≠ q) :
    List.Lex (fun a b : Char => a < b) (p ++ x) (q ++ y) ↔
      List.Lex (fun a b : Char => a < b) p q := by
  induction p generalizing q with
  | nil =>
    cases q with
    | nil => exact absurd rfl hne
    | cons d q => simp at hl
  | cons c p ih =>
    cases q with
    | nil => simp at hl
    | cons d q =>
      by_cases hcd : c = d
      · subst hcd
        have hne' : p ≠ q := fun h => hne (by rw [h])
        have hl' : p.length = q.length := by simpa using hl
        constructor
        · intro h
          cases h with
          | rel hr => exact absurd hr (lt_irrefl c)
          | cons ht => exact List.Lex.cons ((ih q hl' hne').mp ht)
        · intro h
          cases h with
          | rel hr => exact absurd hr (lt_irrefl c)
          | cons ht => exact List.Lex.cons ((ih q hl' hne').mpr ht)
      · constructor
        · intro h
          cases h with
          | rel hr => exact List.Lex.rel hr
          | cons ht => exact absurd rfl hcd
        · intro h
          cases h with
          | rel hr => exact List.Lex.rel hr
          | cons ht => exact absurd rfl hcd

theorem lex_two (a1 a2 b1 b2 : Char) :
    List.Lex (fun x y : Char => x < y) [a1, a2] [b1, b2] ↔
      a1 < b1 ∨ (a1 = b1 ∧ a2 < b2) := by
  constructor
  · intro h
    cases h with
    | rel hr => exact Or.inl hr
    | cons ht =>
      cases ht with
      | rel hr2 => exact Or.inr ⟨rfl, hr2⟩
      | cons ht2 => cases ht2
  · rintro (hr | ⟨rfl, hr2⟩)
    · exact List.Lex.rel hr
    · exact List.Lex.cons (List.Lex.rel hr2)

theorem digitChar_lt_iff : ∀ m < 10, ∀ n < 10, (digitChar m < digitChar n ↔ m < n) := by decide

theorem digitChar_inj : ∀ m < 10, ∀ n < 10, (digitChar m = digitChar n ↔ m = n) := by decide

theorem pad2_data (n : Nat) : (pad2 n).data = [digitChar (n / 10), digitChar (n % 10)] := rfl

theorem pad2_lex_iff (m n : Nat) (hm : m ≤ 99) (hn : n ≤ 99) :
    (List.Lex (fun x y : Char => x < y) (pad2 m).data (pad2 n).data ↔ m < n) := by
  rw [pad2_data, pad2_data, lex_two,
    digitChar_lt_iff (m / 10) (by omega) (n / 10) (by omega),
    digitChar_inj (m / 10) (by omega) (n / 10) (by omega),
    digitChar_lt_iff (m % 10) (by omega) (n % 10) (by omega)]
  omega

theorem pad2_data_inj (m n : Nat) (hm : m ≤ 99) (hn : n ≤ 99)
    (h : (pad2 m).data = (pad2 n).data) : m = n := by
  rw [pad2_data, pad2_data] at h
  injection h with h1 h2
  injection h2 with h2 h3
  have e1 := (digitChar_inj (m / 10) (by omega) (n / 10) (by omega)).mp h1
  have e2 := (digitChar_inj (m % 10) (by omega) (n % 10) (by omega)).mp h2
  omega

theorem pad4_data (n : Nat) : (pad4 n).data = (pad2 (n / 100)).data ++ (pad2 (n % 100)).data := by
  simp [pad4, String.data_append]

theorem pad4_lex_iff (m n : Nat) (hm : m ≤ 9999) (hn : n ≤ 9999) :
    (List.Lex (fun x y : Char => x < y) (pad4 m).data (pad4 n).data ↔ m < n) := by
  rw [pad4_data, pad4_data]
  by_cases hh : m / 100 = n / 100
  · rw [show (pad2 (m / 100)).data = (pad2 (n / 100)).data from by rw [hh], lex_strip,
      pad2_lex_iff _ _ (by omega) (by omega)]
    omega
  · rw [lex_head _ _ _ _ (by simp [pad2_data])
      (fun hc => hh (pad2_data_inj _ _ (by omega) (by omega) hc)),
      pad2_lex_iff _ _ (by omega) (by omega)]
    omega

theorem pad4_data_inj (m n : Nat) (hm : m ≤ 9999) (hn : n ≤ 9999)
    (h : (pad4 m).data = (pad4 n).data) : m = n := by
  rw [pad4_data, pad4_data] at h
  obtain ⟨h1, h2⟩ := List.append_inj h (by simp [pad2_data])
  have e1 := pad2_data_inj _ _ (by omega) (by omega) h1
  have e2 := pad2_data_inj _ _ (by omega) (by omega) h2
  omega

theorem toRfc3339_data (d : LocalDT) :
    (toRfc3339 d).data =
      (pad4 d.year).data ++ (['-'] ++ ((pad2 d.month).data ++ (['-'] ++ ((pad2 d.day).data ++
        (['T'] ++ ((pad2 d.hour).data ++ ([':'] ++ ((pad2 d.minute).data ++ ([':'] ++
        ((pad2 d.second).data ++ ((if d.offNeg then ['-'] else ['+']) ++
        ((pad2 d.offHour).data ++ ([':'] ++ (pad2 d.offMin).data))))))))))))) := by
  simp [toRfc3339, String.data_append, apply_ite String.data]

/-! ### Claim C4: calendar arithmetic -/

theorem daysInMonth_le31 : ∀ m < 13, ∀ L : Bool, daysInMonth m L ≤ 31 := by decide

theorem dayOfYear_bound : ∀ m < 13, ∀ L : Bool, 1 ≤ m →
    daysBeforeMonth m L + daysInMonth m L ≤ 365 + (if L then 1 else 0) := by decide

theorem month_step : ∀ m1 < 13, ∀ m2 < 13, ∀ L : Bool, 1 ≤ m1 → m1 < m2 →
    daysBeforeMonth m1 L + daysInMonth m1 L ≤ daysBeforeMonth m2 L := by decide

theorem leapsBefore_succ (y : Nat) :
    leapsBefore (y + 1) = leapsBefore y + (if isLeap y = true then 1 else 0) := by
  rw [leapsBefore, leapsBefore, Finset.range_succ, Finset.filter_insert]
  by_cases h : isLeap y = true
  · rw [if_pos h, Finset.card_insert_of_not_mem (by simp), if_pos h]
  · rw [if_neg h, if_neg h]
    omega

theorem leapsBefore_mono {y1 y2 : Nat} (h : y1 ≤ y2) : leapsBefore y1 ≤ leapsBefore y2 :=
  Finset.card_le_card (Finset.filter_subset_filter _ (Finset.range_subset.mpr h))

/-- Strict monotonicity of the day count in the civil date (valid dates,
lexicographic field order). -/
theorem dayNumber_strict (y1 m1 d1 y2 m2 d2 : Nat)
    (hm1a : 1 ≤ m1) (hm1b : m1 ≤ 12) (_hd1a : 1 ≤ d1) (hd1b : d1 ≤ daysInMonth m1 (isLeap y1))
    (hm2a : 1 ≤ m2) (hm2b : m2 ≤ 12) (hd2a : 1 ≤ d2) (_hd2b : d2 ≤ daysInMonth m2 (isLeap y2))
    (hlt : y1 < y2 ∨ (y1 = y2 ∧ (m1 < m2 ∨ (m1 = m2 ∧ d1 < d2)))) :
    dayNumber y1 m1 d1 < dayNumber y2 m2 d2 := by
  rcases hlt with hy | ⟨hy, hm | ⟨hm, hd⟩⟩
  · have hub : daysBeforeMonth m1 (isLeap y1) + daysInMonth m1 (isLeap y1) ≤
        365 + (if isLeap y1 then 1 else 0) := dayOfYear_bound m1 (by omega) (isLeap y1) hm1a
    have hsucc := leapsBefore_succ y1
    have h365 : 365 * (y1 + 1) ≤ 365 * y2 := Nat.mul_le_mul_left 365 hy
    have hleap : leapsBefore (y1 + 1) ≤ leapsBefore y2 := leapsBefore_mono hy
    rw [dayNumber, dayNumber]
    cases hL : isLeap y1 <;> (rw [hL] at hub hsucc hd1b; simp at hub hsucc; omega)
  · subst hy
    have hstep := month_step m1 (by omega) m2 (by omega) (isLeap y1) hm1a hm
    rw [dayNumber, dayNumber]
    omega
  · subst hy
    subst hm
    rw [dayNumber, dayNumber]
    omega

/-- With equal offsets, the instant order is the lexicographic field order. -/
theorem instant_mono (a b : LocalDT) (ha : a.WF) (hb : b.WF) (ho : sameOffset a b)
    (h : fieldsLt a b) : instant a < instant b := by
  obtain ⟨ha1, ha2, ha3, ha4, ha5, ha6, ha7, ha8, ha9, ha10⟩ := ha
  obtain ⟨hb1, hb2, hb3, hb4, hb5, hb6, hb7, hb8, hb9, hb10⟩ := hb
  obtain ⟨ho1, ho2, ho3⟩ := ho
  have hoe : offsetSec a = offsetSec b := by rw [offsetSec, offsetSec, ho1, ho2, ho3]
  rw [instant, instant, hoe]
  have hSa : secOfDay a ≤ 86399 := by rw [secOfDay]; omega
  have hSb : secOfDay b ≤ 86399 := by rw [secOfDay]; omega
  rcases h with hy | ⟨hy, hm | ⟨hm, hd | ⟨hd, hrest⟩⟩⟩
  · have hDN := dayNumber_strict a.year a.month a.day b.year b.month b.day
      ha2 ha3 ha4 ha5 hb2 hb3 hb4 hb5 (Or.inl hy)
    omega
  · have hDN := dayNumber_strict a.year a.month a.day b.year b.month b.day
      ha2 ha3 ha4 ha5 hb2 hb3 hb4 hb5 (Or.inr ⟨hy, Or.inl hm⟩)
    omega
  · have hDN := dayNumber_strict a.year a.month a.day b.year b.month b.day
      ha2 ha3 ha4 ha5 hb2 hb3 hb4 hb5 (Or.inr ⟨hy, Or.inr ⟨hm, hd⟩⟩)
    omega
  · have hDNe : dayNumber a.year a.month a.day = dayNumber b.year b.month b.day := by
      rw [hy, hm, hd]
    have hSlt : secOfDay a < secOfDay b := by
      rw [secOfDay, secOfDay]
      omega
    omega

/-- With equal offsets and fields, the instants coincide. -/
theorem instant_congr (a b : LocalDT) (ho : sameOffset a b)
    (hy : a.year = b.year) (hm : a.month = b.month) (hd : a.day = b.day)
    (hh : a.hour = b.hour) (hmi : a.minute = b.minute) (hs : a.second = b.second) :
    instant a = instant b := by
  obtain ⟨ho1, ho2, ho3⟩ := ho
  rw [instant, instant, offsetSec, offsetSec, secOfDay, secOfDay, hy, hm, hd, hh, hmi, hs,
    ho1, ho2, ho3]

/-- Lexicographic comparison of the rendered RFC 3339 strings coincides with the
lexicographic field order, for well-formed date-times with equal offsets. -/
theorem rfc_lex_iff_fields (a b : LocalDT) (ha : a.WF) (hb : b.WF) (ho : sameOffset a b) :
    List.Lex (fun x y : Char => x < y) (toRfc3339 a).data (toRfc3339 b).data ↔ fieldsLt a b := by
  obtain ⟨ha1, ha2, ha3, ha4, ha5, ha6, ha7, ha8, ha9, ha10⟩ := ha
  obtain ⟨hb1, hb2, hb3, hb4, hb5, hb6, hb7, hb8, hb9, hb10⟩ := hb
  obtain ⟨ho1, ho2, ho3⟩ := ho
  have hdaya : a.day ≤ 31 := le_trans ha5 (daysInMonth_le31 a.month (by omega) (isLeap a.year))
  have hdayb : b.day ≤ 31 := le_trans hb5 (daysInMonth_le31 b.month (by omega) (isLeap b.year))
  rw [toRfc3339_data, toRfc3339_data]
  by_cases hy : a.year = b.year
  · rw [show (pad4 a.year).data = (pad4 b.year).data from by rw [hy], lex_strip, lex_strip]
    by_cases hmo : a.month = b.month
    · rw [show (pad2 a.month).data = (pad2 b.month).data from by rw [hmo], lex_strip, lex_strip]
      by_cases hd : a.day = b.day
      · rw [show (pad2 a.day).data = (pad2 b.day).data from by rw [hd], lex_strip, lex_strip]
        by_cases hh : a.hour = b.hour
        · rw [show (pad2 a.hour).data = (pad2 b.hour).data from by rw [hh], lex_strip, lex_strip]
          by_cases hmi : a.minute = b.minute
          · rw [show (pad2 a.minute).data = (pad2 b.minute).data from by rw [hmi], lex_strip,
              lex_strip]
            by_cases hs : a.second = b.second
            · rw [show (pad2 a.second).data = (pad2 b.second).data from by rw [hs],
                show (if a.offNeg then (['-'] : List Char) else ['+']) =
                  (if b.offNeg then (['-'] : List Char) else ['+']) from by rw [ho1],
                show (pad2 a.offHour).data = (pad2 b.offHour).data from by rw [ho2],
                show (pad2 a.offMin).data = (pad2 b.offMin).data from by rw [ho3]]
              exact iff_of_false (lex_irrefl _) (by simp [fieldsLt, hy, hmo, hd, hh, hmi, hs])
            · rw [lex_head _ _ _ _ (by simp [pad2_data])
                (fun hc => hs (pad2_data_inj _ _ (by omega) (by omega) hc)),
                pad2_lex_iff _ _ (by omega) (by omega)]
              simp [fieldsLt, hy, hmo, hd, hh, hmi, hs]
          · rw [lex_head _ _ _ _ (by simp [pad2_data])
              (fun hc => hmi (pad2_data_inj _ _ (by omega) (by omega) hc)),
              pad2_lex_iff _ _ (by omega) (by omega)]
            simp [fieldsLt, hy, hmo, hd, hh, hmi]
        · rw [lex_head _ _ _ _ (by simp [pad2_data])
            (fun hc => hh (pad2_data_inj _ _ (by omega) (by omega) hc)),
            pad2_lex_iff _ _ (by omega) (by omega)]
          simp [fieldsLt, hy, hmo, hd, hh]
      · rw [lex_head _ _ _ _ (by simp [pad2_data])
          (fun hc => hd (pad2_data_inj _ _ (by omega) (by omega) hc)),
          pad2_lex_iff _ _ (by omega) (by omega)]
        simp [fieldsLt, hy, hmo, hd]
    · rw [lex_head _ _ _ _ (by simp [pad2_data])
        (fun hc => hmo (pad2_data_inj _ _ (by omega) (by omega) hc)),
        pad2_lex_iff _ _ (by omega) (by omega)]
      simp [fieldsLt, hy, hmo]
  · rw [lex_head _ _ _ _ (by simp [pad4_data, pad2_data])
      (fun hc => hy (pad4_data_inj _ _ (by omega) (by omega) hc)),
      pad4_lex_iff _ _ (by omega) (by omega)]
    simp [fieldsLt, hy]

/-! ### Claim C4 -/

/-- C4 (counterexample): three backups modified at instants
`dstA < dstB < dstC` (a daylight-saving fall-back: `dstB` is a later instant
than `dstA` but renders as a smaller string).  `list_backups` orders them
`[c.db, a.db, b.db]`, not the chronologically descending `[c.db, b.db, a.db]`:
descending-by-string is not chronologically equivalent. -/
theorem list_backups_order_cex :
    instant dstA < instant dstB ∧ instant dstB < instant dstC ∧
    list_backups ["cfg"] (some dstDir) =
      Except.ok [entryInfo ["cfg"] ⟨"c.db", some ⟨1, some dstC⟩⟩ ⟨1, some dstC⟩,
        entryInfo ["cfg"] ⟨"a.db", some ⟨1, some dstA⟩⟩ ⟨1, some dstA⟩,
        entryInfo ["cfg"] ⟨"b.db", some ⟨1, some dstB⟩⟩ ⟨1, some dstB⟩] ∧
    [entryInfo ["cfg"] ⟨"c.db", some ⟨1, some dstC⟩⟩ ⟨1, some dstC⟩,
        entryInfo ["cfg"] ⟨"a.db", some ⟨1, some dstA⟩⟩ ⟨1, some dstA⟩,
        entryInfo ["cfg"] ⟨"b.db", some ⟨1, some dstB⟩⟩ ⟨1, some dstB⟩] ≠
      [entryInfo ["cfg"] ⟨"c.db", some ⟨1, some dstC⟩⟩ ⟨1, some dstC⟩,
        entryInfo ["cfg"] ⟨"b.db", some ⟨1, some dstB⟩⟩ ⟨1, some dstB⟩,
        entryInfo ["cfg"] ⟨"a.db", some ⟨1, some dstA⟩⟩ ⟨1, some dstA⟩] :=
  ⟨by decide, by decide, rfl, by decide⟩

/-- C4 (amended): the sequence returned by `list_backups` is sorted descending
by lexicographic comparison of the `modified_at` strings; this ordering is
chronologically equivalent whenever the rendered timestamps carry the same UTC
offset — for well-formed equal-offset date-times, instant order and string
order coincide.  (With mixed offsets, e.g. across a daylight-saving
transition, the equivalence fails; see the counterexample.) -/
theorem list_backups_sorted_desc (cfg : Path) (dir : Option (List DirEntry))
    (l : List BackupFileInfo) (hl : list_backups cfg dir = Except.ok l) :
    l.Sorted descOrder ∧
    (∀ a b : LocalDT, a.WF → b.WF → sameOffset a b →
      (instant a < instant b ↔ toRfc3339 a < toRfc3339 b)) := by
  constructor
  · have hs := List.sorted_insertionSort descOrder ((dir.getD []).foldl (collectStep cfg) [])
    rwa [Except.ok.inj hl] at hs
  · intro a b ha hb ho
    have hstr : toRfc3339 a < toRfc3339 b ↔
        List.Lex (fun x y : Char => x < y) (toRfc3339 a).data (toRfc3339 b).data := by
      rw [String.lt_iff_toList_lt]
      exact Iff.rfl
    rw [hstr, rfc_lex_iff_fields a b ha hb ho]
    constructor
    · intro h
      have tri : fieldsLt a b ∨ (a.year = b.year ∧ a.month = b.month ∧ a.day = b.day ∧
          a.hour = b.hour ∧ a.minute = b.minute ∧ a.second = b.second) ∨ fieldsLt b a := by
        unfold fieldsLt
        omega
      rcases tri with h1 | h2 | h3
      · exact h1
      · obtain ⟨e1, e2, e3, e4, e5, e6⟩ := h2
        exact absurd (instant_congr a b ho e1 e2 e3 e4 e5 e6) (by omega)
      · have hba := instant_mono b a hb ha ⟨ho.1.symm, ho.2.1.symm, ho.2.2.symm⟩ h3
        exact absurd h (lt_asymm hba)
    · exact instant_mono a b ha hb ho

/-- Witness for `list_backups_sorted_desc`: the concrete three-entry listing is
sorted descending by string, and for the equal-offset pair `dstB`, `dstC` the
instant/string orders agree. -/
theorem list_backups_sorted_desc_witness :
    (instant dstB < instant dstC ↔ toRfc3339 dstB < toRfc3339 dstC) ∧
    List.Sorted descOrder [entryInfo ["cfg"] ⟨"c.db", some ⟨1, some dstC⟩⟩ ⟨1, some dstC⟩,
      entryInfo ["cfg"] ⟨"a.db", some ⟨1, some dstA⟩⟩ ⟨1, some dstA⟩,
      entryInfo ["cfg"] ⟨"b.db", some ⟨1, some dstB⟩⟩ ⟨1, some dstB⟩] :=
  ⟨(list_backups_sorted_desc ["cfg"] (some dstDir) _ rfl).2 dstB dstC (by decide) (by decide)
      ⟨rfl, rfl, rfl⟩,
    (list_backups_sorted_desc ["cfg"] (some dstDir) _ rfl).1⟩

/-! ### Claim C9 -/

/-- C9: in `restore_database` and `import_backup`, when a live database exists
and the copy creating the safety backup fails, the command stops with the
safety-backup error and the filesystem — in particular the database file — is
unchanged: the overwriting copy is never attempted. -/
theorem safety_copy_failure_aborts (cfg : Path) (fl : Fail) (fs : FS)
    (ts f src cdb cb cs e1 e2 : String)
    (hdb : fs (normalize (get_db_path cfg)) = some cdb)
    (hb : fs (normalize (pathJoin (get_backups_dir cfg) f)) = some cb)
    (hr : fl.copyErr (normalize (get_db_path cfg))
        (normalize (pathJoin (get_backups_dir cfg) ("pre_restore_safety_" ++ ts ++ ".db"))) =
      some e1)
    (hsrc : fs (normalize (splitPath src)) = some cs)
    (hsext : fileExt (splitPath src) = some "db")
    (hi : fl.copyErr (normalize (get_db_path cfg))
        (normalize (pathJoin (get_backups_dir cfg) ("pre_import_safety_" ++ ts ++ ".db"))) =
      some e2) :
    restore_database cfg fl fs ts f =
      (Except.error ("Failed to create safety backup: " ++ e1), fs) ∧
    import_backup cfg fl fs ts src =
      (Except.error ("Failed to create safety backup: " ++ e2), fs) := by
  constructor
  · simp [restore_database, hb, hdb, hr]
  · simp [import_backup, hsrc, hsext, hdb, hi]

/-! ### Claim C6 -/

/-- C6: a successful `restore_database` returns a message naming both the
restored backup filename and the computed safety filename; when no live
database exists the message still cites the computed safety name, yet no path
other than the database path itself changes — in particular the safety file is
not created. -/
theorem restore_message_names_both (cfg : Path) (fl : Fail) (fs : FS) (ts f : String)
    (hts : TimestampOk ts)
    (hb : (fs (normalize (pathJoin (get_backups_dir cfg) f))).isSome = true)
    (hnf : ∀ a b, fl.copyErr a b = none) :
    (restore_database cfg fl fs ts f).1 =
      Except.ok ("Database restored from " ++ f ++ ". Safety backup created: " ++
        ("pre_restore_safety_" ++ ts ++ ".db")) ∧
    (fs (normalize (get_db_path cfg)) = none →
      ∀ p, p ≠ normalize (get_db_path cfg) → (restore_database cfg fl fs ts f).2 p = fs p) ∧
    (fs (normalize (get_db_path cfg)) = none →
      (restore_database cfg fl fs ts f).2
          (normalize (pathJoin (get_backups_dir cfg) ("pre_restore_safety_" ++ ts ++ ".db"))) =
        fs (normalize (pathJoin (get_backups_dir cfg) ("pre_restore_safety_" ++ ts ++ ".db")))) := by
  have hspdb : normalize (pathJoin (get_backups_dir cfg) ("pre_restore_safety_" ++ ts ++ ".db")) ≠
      normalize (get_db_path cfg) := by
    rw [safety_path_eq cfg "pre_restore_safety_" ts (by decide) (by decide) (by decide) hts,
      normalize_db_path]
    exact backups_entry_ne_db cfg _
  refine ⟨?_, ?_, ?_⟩
  · cases hdb : fs (normalize (get_db_path cfg)) with
    | none => rw [restore_success_eval_nodb cfg fl fs ts f hb hdb hnf]
    | some c0 => rw [restore_success_eval cfg fl fs ts f hb (by simp [hdb]) hnf]
  · intro hdb p hp
    rw [restore_success_eval_nodb cfg fl fs ts f hb hdb hnf]
    simp [FS.copy_at, hp]
  · intro hdb
    rw [restore_success_eval_nodb cfg fl fs ts f hb hdb hnf]
    simp [FS.copy_at, hspdb]

/-- Witness for `restore_message_names_both` on a filesystem holding only the
backup, no live database. -/
theorem restore_message_names_both_witness :
    ((restore_database ["cfg"] noFail onlyBackupFS "2024-01-01_00-00-00" "b.db").1 =
      Except.ok ("Database restored from " ++ "b.db" ++ ". Safety backup created: " ++
        ("pre_restore_safety_" ++ "2024-01-01_00-00-00" ++ ".db")) ∧
    (onlyBackupFS (normalize (get_db_path ["cfg"])) = none →
      ∀ p, p ≠ normalize (get_db_path ["cfg"]) →
        (restore_database ["cfg"] noFail onlyBackupFS "2024-01-01_00-00-00" "b.db").2 p =
          onlyBackupFS p) ∧
    (onlyBackupFS (normalize (get_db_path ["cfg"])) = none →
      (restore_database ["cfg"] noFail onlyBackupFS "2024-01-01_00-00-00" "b.db").2
          (normalize (pathJoin (get_backups_dir ["cfg"])
            ("pre_restore_safety_" ++ "2024-01-01_00-00-00" ++ ".db"))) =
        onlyBackupFS (normalize (pathJoin (get_backups_dir ["cfg"])
          ("pre_restore_safety_" ++ "2024-01-01_00-00-00" ++ ".db"))))) :=
  restore_message_names_both ["cfg"] noFail onlyBackupFS "2024-01-01_00-00-00" "b.db"
    (by decide) (by decide) (fun _ _ => rfl)

/-! ### Claim C10 -/

/-- C10: `delete_backup` joins its filename argument verbatim: the filename
`../motormods.db` resolves to the live database path, which lies outside the
backup directory, and `delete_backup` permanently removes that file when it
exists. -/
theorem traversal_deletes_outside (cfg : Path) (fl : Fail) (fs : FS) (c : String)
    (hex : fs (normalize (get_db_path cfg)) = some c)
    (hrm : fl.removeErr (normalize (get_db_path cfg)) = none) :
    normalize (pathJoin (get_backups_dir cfg) "../motormods.db") = normalize (get_db_path cfg) ∧
    (¬ ∃ rest, normalize (pathJoin (get_backups_dir cfg) "../motormods.db") =
        normalize (get_backups_dir cfg) ++ rest) ∧
    delete_backup cfg fl fs "../motormods.db" =
      (Except.ok ("Backup deleted: " ++ "../motormods.db"),
        FS.remove fs (normalize (get_db_path cfg))) := by
  have hjoin : pathJoin (get_backups_dir cfg) "../motormods.db" =
      get_backups_dir cfg ++ ["..", "motormods.db"] := by
    rw [pathJoin, if_neg (by decide)]
    rfl
  have hres : normalize (get_backups_dir cfg ++ ["..", "motormods.db"]) =
      normalize (get_db_path cfg) := by
    have h1 : get_backups_dir cfg ++ ["..", "motormods.db"] =
        ((cfg ++ ["backups"]) ++ [".."]) ++ ["motormods.db"] := by
      simp [get_backups_dir]
    rw [h1, normalize_append_single _ "motormods.db" (by decide) (by decide), normalize_db_path]
    have h2 : normalize ((cfg ++ ["backups"]) ++ [".."]) = normalize cfg := by
      rw [show ((cfg ++ ["backups"]) ++ [".."] : Path) = cfg ++ ["backups", ".."] by simp]
      simp [normalize, List.foldl_append]
    rw [h2]
  have hb : normalize (get_backups_dir cfg) = normalize cfg ++ ["backups"] :=
    normalize_append_single cfg "backups" (by decide) (by decide)
  refine ⟨by rw [hjoin, hres], ?_, ?_⟩
  · rintro ⟨rest, hrest⟩
    rw [hjoin, hres, normalize_db_path, hb, List.append_assoc] at hrest
    have := List.append_cancel_left hrest
    simp at this
  · have hlast : fileExt (get_backups_dir cfg ++ ["..", "motormods.db"]) = some "db" := by
      rw [fileExt]
      rw [show (get_backups_dir cfg ++ ["..", "motormods.db"] : Path) =
        cfg ++ ["backups", "..", "motormods.db"] by simp [get_backups_dir]]
      rw [List.getLast?_append]
      simp
      decide
    rw [delete_backup]
    simp [hjoin, hres, hex, hlast, hrm]

/-- Witness for `traversal_deletes_outside` on the demo filesystem. -/
theorem traversal_deletes_outside_witness :
    normalize (pathJoin (get_backups_dir ["cfg"]) "../motormods.db") =
      normalize (get_db_path ["cfg"]) ∧
    (¬ ∃ rest, normalize (pathJoin (get_backups_dir ["cfg"]) "../motormods.db") =
        normalize (get_backups_dir ["cfg"]) ++ rest) ∧
    delete_backup ["cfg"] noFail demoFS "../motormods.db" =
      (Except.ok ("Backup deleted: " ++ "../motormods.db"),
        FS.remove demoFS (normalize (get_db_path ["cfg"]))) :=
  traversal_deletes_outside ["cfg"] noFail demoFS "live" (by decide) rfl

/-! ### Claim C7 -/

/-- The paths `restore_database` can write: its safety path and the database path. -/
theorem restore_changes (cfg : Path) (fl : Fail) (fs : FS) (ts f : String) (p : Path)
    (h : (restore_database cfg fl fs ts f).2 p ≠ fs p) :
    p = normalize (pathJoin (get_backups_dir cfg) ("pre_restore_safety_" ++ ts ++ ".db")) ∨
    p = normalize (get_db_path cfg) := by
  by_contra hc
  push_neg at hc
  obtain ⟨h1, h2⟩ := hc
  apply h
  cases hbp : fs (normalize (pathJoin (get_backups_dir cfg) f)) with
  | none => simp [restore_database, hbp]
  | some cb =>
    cases hdb : fs (normalize (get_db_path cfg)) with
    | none =>
      cases hc2 : fl.copyErr (normalize (pathJoin (get_backups_dir cfg) f))
          (normalize (get_db_path cfg)) with
      | some e => simp [restore_database, hbp, hdb, hc2]
      | none => simp [restore_database, hbp, hdb, hc2, FS.copy_at, h2]
    | some c0 =>
      cases hc1 : fl.copyErr (normalize (get_db_path cfg))
          (normalize (pathJoin (get_backups_dir cfg) ("pre_restore_safety_" ++ ts ++ ".db"))) with
      | some e => simp [restore_database, hbp, hdb, hc1]
      | none =>
        cases hc2 : fl.copyErr (normalize (pathJoin (get_backups_dir cfg) f))
            (normalize (get_db_path cfg)) with
        | some e => simp [restore_database, hbp, hdb, hc1, hc2, FS.copy_at, h1]
        | none => simp [restore_database, hbp, hdb, hc1, hc2, FS.copy_at, h1, h2]

/-- The paths `import_backup` can write: its safety path and the database path. -/
theorem import_changes (cfg : Path) (fl : Fail) (fs : FS) (ts s : String) (p : Path)
    (h : (import_backup cfg fl fs ts s).2 p ≠ fs p) :
    p = normalize (pathJoin (get_backups_dir cfg) ("pre_import_safety_" ++ ts ++ ".db")) ∨
    p = normalize (get_db_path cfg) := by
  by_contra hc
  push_neg at hc
  obtain ⟨h1, h2⟩ := hc
  apply h
  cases hsrc : fs (normalize (splitPath s)) with
  | none => simp [import_backup, hsrc]
  | some cs =>
    by_cases hx : fileExt (splitPath s) = some "db"
    · cases hdb : fs (normalize (get_db_path cfg)) with
      | none =>
        cases hc2 : fl.copyErr (normalize (splitPath s)) (normalize (get_db_path cfg)) with
        | some e => simp [import_backup, hsrc, hx, hdb, hc2]
        | none => simp [import_backup, hsrc, hx, hdb, hc2, FS.copy_at, h2]
      | some c0 =>
        cases hc1 : fl.copyErr (normalize (get_db_path cfg))
            (normalize (pathJoin (get_backups_dir cfg) ("pre_import_safety_" ++ ts ++ ".db"))) with
        | some e => simp [import_backup, hsrc, hx, hdb, hc1]
        | none =>
          cases hc2 : fl.copyErr (normalize (splitPath s)) (normalize (get_db_path cfg)) with
          | some e => simp [import_backup, hsrc, hx, hdb, hc1, hc2, FS.copy_at, h1]
          | none => simp [import_backup, hsrc, hx, hdb, hc1, hc2, FS.copy_at, h1, h2]
    · simp [import_backup, hsrc, hx]

/-- The only path `backup_database` can write: the fresh backup path. -/
theorem backup_changes (cfg : Path) (fl : Fail) (fs : FS) (ts rfc : String) (p : Path)
    (h : (backup_database cfg fl fs ts rfc).2 p ≠ fs p) :
    p = normalize (pathJoin (get_backups_dir cfg) ("motormods_backup_" ++ ts ++ ".db")) := by
  by_contra h1
  apply h
  cases hdb : fs (normalize (get_db_path cfg)) with
  | none => simp [backup_database, hdb]
  | some c =>
    cases hce : fl.copyErr (normalize (get_db_path cfg))
        (normalize (pathJoin (get_backups_dir cfg) ("motormods_backup_" ++ ts ++ ".db"))) with
    | some e => simp [backup_database, hdb, hce]
    | none =>
      cases hme : fl.metaErr
          (normalize (pathJoin (get_backups_dir cfg) ("motormods_backup_" ++ ts ++ ".db"))) with
      | some e => simp [backup_database, hdb, hce, hme, FS.copy_at, h1]
      | none => simp [backup_database, hdb, hce, hme, FS.copy_at, h1]

/-- The database path is not inside the backup directory. -/
theorem db_not_in_backups (cfg : Path) : ¬ InBackupsDir cfg (normalize (get_db_path cfg)) := by
  rintro ⟨rest, hrne, heq⟩
  rw [normalize_db_path,
    show normalize (get_backups_dir cfg) = normalize cfg ++ ["backups"] from
      normalize_append_single cfg "backups" (by decide) (by decide),
    List.append_assoc] at heq
  have h2 := List.append_cancel_left heq
  simp at h2

/-- The extension of a direct entry of the backup directory is that of its name. -/
theorem fileExt_backups_entry (cfg : Path) (s : String) :
    fileExt (normalize cfg ++ ["backups", s]) = extOf s := by
  rw [fileExt,
    show (normalize cfg ++ ["backups", s] : Path) = (normalize cfg ++ ["backups"]) ++ [s] by simp,
    List.getLast?_append]
  simp

/-- C7 (counterexample): the claim asserts every file this subsystem ever
creates in the backup directory has the `.db` extension; but `export_backup`
copies to a caller-chosen destination, which may lie inside the backup
directory with any extension — here it creates `evil.txt` there. -/
theorem backups_dir_db_invariant_cex :
    (export_backup ["cfg"] noFail demoFS "b.db" "/cfg/backups/evil.txt").2
        ["cfg", "backups", "evil.txt"] = some "bk" ∧
    demoFS ["cfg", "backups", "evil.txt"] = none ∧
    InBackupsDir ["cfg"] ["cfg", "backups", "evil.txt"] ∧
    fileExt ["cfg", "backups", "evil.txt"] ≠ some "db" :=
  ⟨rfl, rfl, ⟨["evil.txt"], by decide, by decide⟩, by decide⟩

/-- C7 (amended): along every sequence of operations, every path inside the
backup directory written by one of the creating commands — `backup_database`,
or the safety copies of `restore_database` and `import_backup` — carries the
`.db` extension. (`export_backup` can write a caller-chosen name anywhere, so
it is excluded; see the counterexample.) -/
theorem creators_only_write_db (cfg : Path) (fl : Fail) (fs0 : FS) (pre : List Op) (op : Op)
    (p : Path) (hcr : creatorOp op = true) (ht : opTsOk op) (hin : InBackupsDir cfg p)
    (hch : stepFS cfg fl (runOps cfg fl pre fs0) op p ≠ runOps cfg fl pre fs0 p) :
    fileExt p = some "db" := by
  cases op with
  | listB => simp [creatorOp] at hcr
  | exportB f d => simp [creatorOp] at hcr
  | delete f => simp [creatorOp] at hcr
  | backup ts rfc =>
    have hp := backup_changes cfg fl (runOps cfg fl pre fs0) ts rfc p hch
    rw [hp, safety_path_eq cfg "motormods_backup_" ts (by decide) (by decide) (by decide) ht,
      fileExt_backups_entry]
    exact extOf_stamped "motormods_backup_" ts (by decide) (by decide) ht
  | restore ts f =>
    rcases restore_changes cfg fl (runOps cfg fl pre fs0) ts f p hch with hp | hp
    · rw [hp, safety_path_eq cfg "pre_restore_safety_" ts (by decide) (by decide) (by decide) ht,
        fileExt_backups_entry]
      exact extOf_stamped "pre_restore_safety_" ts (by decide) (by decide) ht
    · exact absurd (hp ▸ hin) (db_not_in_backups cfg)
  | importB ts s =>
    rcases import_changes cfg fl (runOps cfg fl pre fs0) ts s p hch with hp | hp
    · rw [hp, safety_path_eq cfg "pre_import_safety_" ts (by decide) (by decide) (by decide) ht,
        fileExt_backups_entry]
      exact extOf_stamped "pre_import_safety_" ts (by decide) (by decide) ht
    · exact absurd (hp ▸ hin) (db_not_in_backups cfg)

/-- Witness for `creators_only_write_db`: the safety file written by a concrete
restore on the demo filesystem carries the `.db` extension. -/
theorem creators_only_write_db_witness :
    fileExt ["cfg", "backups", "pre_restore_safety_2024-01-01_00-00-00.db"] = some "db" :=
  creators_only_write_db ["cfg"] noFail demoFS [] (Op.restore "2024-01-01_00-00-00" "b.db")
    ["cfg", "backups", "pre_restore_safety_2024-01-01_00-00-00.db"] rfl (by decide)
    ⟨["pre_restore_safety_2024-01-01_00-00-00.db"], by decide, by decide⟩ (by decide)

/-- Witness for `safety_copy_failure_aborts` with a concrete failing copy. -/
theorem safety_copy_failure_aborts_witness :
    restore_database ["cfg"] failSafety demoFS "2024-01-01_00-00-00" "b.db" =
      (Except.error ("Failed to create safety backup: " ++ "disk full"), demoFS) ∧
    import_backup ["cfg"] failSafety demoFS "2024-01-01_00-00-00" "/tmp/src.db" =
      (Except.error ("Failed to create safety backup: " ++ "disk full"), demoFS) :=
  safety_copy_failure_aborts ["cfg"] failSafety demoFS "2024-01-01_00-00-00" "b.db" "/tmp/src.db"
    "live" "bk" "s" "disk full" "disk full" (by decide) (by decide) (by decide) (by decide)
    (by decide) (by decide)

end Desktop
